import Mathlib

/-!
Verification of the multi-query retrieval-and-merge pipeline of this
repository (query expansion, fan-out search, deduplicate-by-content-prefix,
sort by score, truncate to `k`), together with the batched indexing loop.

External services (the generative-text API, the embedding API and the
vector database) are modelled by explicit outcome parameters: each theorem
quantifies over every possible outcome of the external calls.  Relevance
scores are modelled as rationals, JS strings as Lean strings.
-/

/-- A retrieval hit, as built by `singleQuerySearch`:
`{ pageContent, metadata, score, query }`.  The payload metadata is kept
opaque as a string. -/
structure Hit where
  pageContent : String
  metadata : String
  score : ℚ
  query : String
deriving DecidableEq

/-- The content-derived identity key used by the merge step:
`result.pageContent.substring(0, 100)`. -/
def contentIdentifier (h : Hit) : String :=
  h.pageContent.take 100

/-- Lookup in a JS `Map` keyed by strings (`contentMap.get` / `contentMap.has`),
modelled as an association list in insertion order. -/
def mapGet (key : String) : List (String × Hit) → Option Hit
  | [] => none
  | (k, v) :: rest => if k = key then some v else mapGet key rest

/-- `contentMap.set(key, v)`: replaces the value at an existing key in place
(keeping its insertion position, as a JS `Map` does) and otherwise appends
the new binding at the end. -/
def mapSet : List (String × Hit) → String → Hit → List (String × Hit)
  | [], key, v => [(key, v)]
  | (k, w) :: rest, key, v =>
    if k = key then (key, v) :: rest else (k, w) :: mapSet rest key v

/-- One iteration of the deduplication loop of `parallelQuerySearch`:
`if (!contentMap.has(id) || contentMap.get(id).score < result.score)
   contentMap.set(id, result)`. -/
def dedupStep (contentMap : List (String × Hit)) (result : Hit) :
    List (String × Hit) :=
  let key := contentIdentifier result
  match mapGet key contentMap with
  | none => mapSet contentMap key result
  | some prev =>
      if prev.score < result.score then mapSet contentMap key result
      else contentMap

/-- The content map built by `flatResults.forEach(...)` in
`parallelQuerySearch`. -/
def contentMapOf (flatResults : List Hit) : List (String × Hit) :=
  flatResults.foldl dedupStep []

/-- The ordering used by `.sort((a, b) => b.score - a.score)`:
`scoreGe a b` holds when `a` may come before `b` (score descending). -/
def scoreGe (a b : Hit) : Prop :=
  b.score ≤ a.score

instance : DecidableRel scoreGe :=
  fun a b => inferInstanceAs (Decidable (b.score ≤ a.score))

instance : IsTotal Hit scoreGe :=
  ⟨fun a b => le_total b.score a.score⟩

instance : IsTrans Hit scoreGe :=
  ⟨fun _ _ _ h1 h2 => le_trans h2 h1⟩

/-- The merge step of `parallelQuerySearch`:
`Array.from(contentMap.values()).sort((a, b) => b.score - a.score).slice(0, k)`.
JS `Array.prototype.sort` is stable, which the stable `insertionSort`
captures. -/
def parallelMerge (flatResults : List Hit) (k : Nat) : List Hit :=
  (((contentMapOf flatResults).map Prod.snd).insertionSort scoreGe).take k

/-- Outcome of the `generativeModel.generateContent` call inside
`generateQueryVariations`: either a response text, or a thrown error. -/
inductive GenServiceOutcome where
  | ok (responseText : String)
  | err
deriving DecidableEq

/-- Character-level model of
`responseText.replace(/```json|```/g, '')`: scanning left to right, an
occurrence of "```json" (tried first, as in regex alternation) or of
"```" is removed, other characters are kept. -/
def stripFenceTokens : List Char → List Char
  | [] => []
  | c :: rest =>
    if List.isPrefixOf ("```json".toList) (c :: rest) then
      stripFenceTokens (rest.drop 6)
    else if List.isPrefixOf ("```".toList) (c :: rest) then
      stripFenceTokens (rest.drop 2)
    else
      c :: stripFenceTokens rest
termination_by cs => cs.length
decreasing_by
  all_goals simp [List.length_drop]
  all_goals omega

/-- The response clean-up in `generateQueryVariations`:
`responseText.replace(/```json|```/g, '').trim()`. -/
def stripCodeFences (s : String) : String :=
  (String.mk (stripFenceTokens s.toList)).trim

/-- `generateQueryVariations(originalQuery)`.  The external pieces are
explicit: `svc` is the outcome of the `generateContent` call, and `parse`
models the JS builtin `JSON.parse` followed by the array spread
`[originalQuery, ...variations]` — `some vs` when that produced the list
of variation strings `vs`, `none` when it threw.  The two catch blocks of
the source become the two fallback branches. -/
def generateQueryVariations (parse : String → Option (List String))
    (originalQuery : String) (svc : GenServiceOutcome) : List String :=
  match svc with
  | GenServiceOutcome.err => [originalQuery]
  | GenServiceOutcome.ok responseText =>
    match parse (stripCodeFences responseText) with
    | some variations => originalQuery :: variations
    | none =>
        [originalQuery,
         "What are the technical aspects of " ++ originalQuery ++ "?",
         "Examples of " ++ originalQuery ++ " in Node.js",
         "Explain the concept of " ++ originalQuery ++ " in Node.js"]

/-- A raw hit returned by the vector-database search
(`hit.payload.content`, `hit.payload.metadata`, `hit.score`). -/
structure QdrantHit where
  content : String
  metadata : String
  score : ℚ
deriving DecidableEq

/-- Outcome of one `qdrantClient.search` call (together with the
`getEmbeddings` call that precedes it): a ranked hit list, or a thrown
error. -/
inductive SearchOutcome where
  | ok (hits : List QdrantHit)
  | err
deriving DecidableEq

/-- `singleQuerySearch(query, k)`: on success, maps each raw hit to
`{ pageContent, metadata, score, query }`; on error, the catch block
returns `[]`.  The limit `k` is passed through to the external search,
whose outcome already reflects it. -/
def singleQuerySearch (query : String) (k : Nat) (outcome : SearchOutcome) :
    List Hit :=
  match outcome with
  | SearchOutcome.ok hits =>
      hits.map fun hit => ⟨hit.content, hit.metadata, hit.score, query⟩
  | SearchOutcome.err => []

/-- The fan-out of `parallelQuerySearch`:
`queryVariations.map(query => singleQuerySearch(query, k))` awaited with
`Promise.all`.  `env i` is the outcome of the search for the `i`-th
variation. -/
def fanOut (variations : List String) (k : Nat) (env : Nat → SearchOutcome) :
    List (List Hit) :=
  match variations with
  | [] => []
  | q :: rest =>
      singleQuerySearch q k (env 0) :: fanOut rest k (fun i => env (i + 1))

/-- The body of the `try` block of `parallelQuerySearch(originalQuery, k)`:
expand the query, fan out one search per variation, flatten, and merge. -/
def parallelQuerySearchBody (parse : String → Option (List String))
    (originalQuery : String) (k : Nat) (svc : GenServiceOutcome)
    (env : Nat → SearchOutcome) : List Hit :=
  let queryVariations := generateQueryVariations parse originalQuery svc
  let allResults := fanOut queryVariations k env
  let flatResults := allResults.flatten
  parallelMerge flatResults k

/-- `parallelQuerySearch(originalQuery, k)` with its `try`/`catch`.
`pipelineThrew` abstracts "some step of the try block threw a JS
exception" (none of the embedded steps can, but e.g. a malformed payload
could at runtime); the catch block falls back to
`singleQuerySearch(originalQuery, k)`, whose own external outcome is
`fallbackOutcome`. -/
def parallelQuerySearch (parse : String → Option (List String))
    (originalQuery : String) (k : Nat) (svc : GenServiceOutcome)
    (env : Nat → SearchOutcome) (pipelineThrew : Bool)
    (fallbackOutcome : SearchOutcome) : List Hit :=
  if pipelineThrew then singleQuerySearch originalQuery k fallbackOutcome
  else parallelQuerySearchBody parse originalQuery k svc env

/-- A document to be indexed (`doc.pageContent`, `doc.metadata`). -/
structure Doc where
  pageContent : String
  metadata : String
deriving DecidableEq

/-- A point upserted into the vector store: the embedding vector plus the
payload `{ content, metadata }`.  The random `uuidv4()` id carries no
information and is omitted. -/
structure QPoint where
  vector : List ℚ
  content : String
  metadata : String
deriving DecidableEq

/-- The batching loop of `addDocumentsToVectorStore`:
`for (let i = 0; i < documents.length; i += batchSize)
   documents.slice(i, Math.min(i + batchSize, documents.length))`
with `batchSize = 20`, as successive take/drop slices. -/
def docBatches : List Doc → List (List Doc)
  | [] => []
  | d :: rest => ((d :: rest).take 20) :: docBatches ((d :: rest).drop 20)
termination_by l => l.length
decreasing_by
  simp [List.length_drop]
  omega

/-- The point built for one document inside a batch:
`{ vector: await getEmbeddings(doc.pageContent),
   payload: { content: doc.pageContent, metadata: doc.metadata } }`.
`embed` models the external embedding service. -/
def mkPoint (embed : String → List ℚ) (doc : Doc) : QPoint :=
  ⟨embed doc.pageContent, doc.pageContent, doc.metadata⟩

/-- The sequence of `qdrantClient.upsert` calls performed by
`addDocumentsToVectorStore`: one call per batch, in batch order, each
carrying the points of its batch. -/
def upsertCalls (embed : String → List ℚ) (documents : List Doc) :
    List (List QPoint) :=
  (docBatches documents).map fun batch => batch.map (mkPoint embed)

/-! ### Lemmas about the JS-map model -/

theorem mapGet_mapSet (m : List (String × Hit)) (k key : String) (v : Hit) :
    mapGet key (mapSet m k v) = if k = key then some v else mapGet key m := by
  induction m with
  | nil => simp [mapGet, mapSet]
  | cons p rest ih =>
    obtain ⟨k', w⟩ := p
    by_cases h1 : k' = k
    · subst h1
      by_cases h2 : k' = key <;> simp [mapGet, mapSet, h2]
    · by_cases h2 : k' = key
      · subst h2
        have : ¬ k = k' := fun e => h1 e.symm
        simp [mapGet, mapSet, h1, this]
      · simp [mapGet, mapSet, h1, h2, ih]

theorem mem_mapSet {m : List (String × Hit)} {key : String} {v : Hit}
    {p : String × Hit} (hp : p ∈ mapSet m key v) : p = (key, v) ∨ p ∈ m := by
  induction m with
  | nil => simpa [mapSet] using hp
  | cons q rest ih =>
    obtain ⟨k', w⟩ := q
    by_cases h1 : k' = key
    · simp only [mapSet, h1, if_pos rfl] at hp
      rcases List.mem_cons.mp hp with h | h
      · exact Or.inl h
      · exact Or.inr (List.mem_cons_of_mem _ h)
    · simp only [mapSet, h1, if_neg h1] at hp
      rcases List.mem_cons.mp hp with h | h
      · exact Or.inr (by simp [h])
      · rcases ih h with h' | h'
        · exact Or.inl h'
        · exact Or.inr (List.mem_cons_of_mem _ h')

theorem mapGet_eq_none_iff (m : List (String × Hit)) (key : String) :
    mapGet key m = none ↔ key ∉ m.map Prod.fst := by
  induction m with
  | nil => simp [mapGet]
  | cons p rest ih =>
    obtain ⟨k', w⟩ := p
    by_cases h1 : k' = key <;> simp [mapGet, h1, ih, Ne.symm, eq_comm]

theorem map_fst_mapSet (m : List (String × Hit)) (key : String) (v : Hit) :
    (mapSet m key v).map Prod.fst =
      if (mapGet key m).isSome then m.map Prod.fst
      else m.map Prod.fst ++ [key] := by
  induction m with
  | nil => simp [mapGet, mapSet]
  | cons p rest ih =>
    obtain ⟨k', w⟩ := p
    by_cases h1 : k' = key
    · subst h1
      simp [mapGet, mapSet]
    · simp only [mapSet, if_neg h1, List.map_cons, mapGet]
      rw [ih]
      by_cases h2 : (mapGet key rest).isSome <;> simp [h1, h2]

theorem nodup_keys_mapSet (m : List (String × Hit)) (key : String) (v : Hit)
    (h : (m.map Prod.fst).Nodup) : ((mapSet m key v).map Prod.fst).Nodup := by
  rw [map_fst_mapSet]
  cases hm : mapGet key m with
  | some w => simpa using h
  | none =>
    have hk : key ∉ m.map Prod.fst := (mapGet_eq_none_iff m key).mp hm
    simp only [Option.isSome_none, Bool.false_eq_true, if_false]
    exact List.Nodup.append h (List.nodup_singleton key)
      (by simpa [List.disjoint_right] using hk)

/-! ### Invariants of the deduplication fold -/

theorem dedupStep_of_none {m : List (String × Hit)} {r : Hit}
    (hm : mapGet (contentIdentifier r) m = none) :
    dedupStep m r = mapSet m (contentIdentifier r) r := by
  simp only [dedupStep]
  rw [hm]

theorem dedupStep_of_some_lt {m : List (String × Hit)} {r prev : Hit}
    (hm : mapGet (contentIdentifier r) m = some prev)
    (hs : prev.score < r.score) :
    dedupStep m r = mapSet m (contentIdentifier r) r := by
  simp only [dedupStep]
  rw [hm]
  simp [hs]

theorem dedupStep_of_some_ge {m : List (String × Hit)} {r prev : Hit}
    (hm : mapGet (contentIdentifier r) m = some prev)
    (hs : ¬ prev.score < r.score) :
    dedupStep m r = m := by
  simp only [dedupStep]
  rw [hm]
  simp [hs]

theorem mem_dedupStep {m : List (String × Hit)} {r : Hit} {p : String × Hit}
    (hp : p ∈ dedupStep m r) : p = (contentIdentifier r, r) ∨ p ∈ m := by
  rcases hm : mapGet (contentIdentifier r) m with _ | prev
  · rw [dedupStep_of_none hm] at hp
    exact mem_mapSet hp
  · by_cases hs : prev.score < r.score
    · rw [dedupStep_of_some_lt hm hs] at hp
      exact mem_mapSet hp
    · rw [dedupStep_of_some_ge hm hs] at hp
      exact Or.inr hp

theorem nodup_keys_dedupStep {m : List (String × Hit)} (r : Hit)
    (h : (m.map Prod.fst).Nodup) : ((dedupStep m r).map Prod.fst).Nodup := by
  rcases hm : mapGet (contentIdentifier r) m with _ | prev
  · rw [dedupStep_of_none hm]
    exact nodup_keys_mapSet m _ r h
  · by_cases hs : prev.score < r.score
    · rw [dedupStep_of_some_lt hm hs]
      exact nodup_keys_mapSet m _ r h
    · rwa [dedupStep_of_some_ge hm hs]

theorem foldl_dedupStep_invariant (hits : List Hit) (m : List (String × Hit))
    (hm1 : (m.map Prod.fst).Nodup)
    (hm2 : ∀ p ∈ m, p.1 = contentIdentifier p.2) :
    ((hits.foldl dedupStep m).map Prod.fst).Nodup ∧
    ∀ p ∈ hits.foldl dedupStep m,
      p.1 = contentIdentifier p.2 ∧ (p.2 ∈ hits ∨ p ∈ m) := by
  induction hits generalizing m with
  | nil => exact ⟨hm1, fun p hp => ⟨hm2 p hp, Or.inr hp⟩⟩
  | cons r t ih =>
    have step1 : ((dedupStep m r).map Prod.fst).Nodup := nodup_keys_dedupStep r hm1
    have step2 : ∀ p ∈ dedupStep m r, p.1 = contentIdentifier p.2 := by
      intro p hp
      rcases mem_dedupStep hp with h | h
      · rw [h]
      · exact hm2 p h
    obtain ⟨ih1, ih2⟩ := ih (dedupStep m r) step1 step2
    refine ⟨by simpa [List.foldl_cons] using ih1, ?_⟩
    intro p hp
    rw [List.foldl_cons] at hp
    obtain ⟨hkey, hmem⟩ := ih2 p hp
    refine ⟨hkey, ?_⟩
    rcases hmem with h | h
    · exact Or.inl (List.mem_cons_of_mem _ h)
    · rcases mem_dedupStep h with h' | h'
      · subst h'
        exact Or.inl (List.mem_cons_self _ _)
      · exact Or.inr h'

theorem contentMapOf_invariant (flatResults : List Hit) :
    ((contentMapOf flatResults).map Prod.fst).Nodup ∧
    ∀ p ∈ contentMapOf flatResults,
      p.1 = contentIdentifier p.2 ∧ p.2 ∈ flatResults := by
  obtain ⟨h1, h2⟩ := foldl_dedupStep_invariant flatResults [] (by simp) (by simp)
  exact ⟨h1, fun p hp => ⟨(h2 p hp).1, by simpa using (h2 p hp).2⟩⟩

theorem pairwise_distinct_identifiers (flatResults : List Hit) :
    ((contentMapOf flatResults).map Prod.snd).Pairwise
      (fun a b => contentIdentifier a ≠ contentIdentifier b) := by
  obtain ⟨hnd, hinv⟩ := contentMapOf_invariant flatResults
  have hkeys : (contentMapOf flatResults).map Prod.fst =
      ((contentMapOf flatResults).map Prod.snd).map contentIdentifier := by
    rw [List.map_map]
    refine List.map_congr_left fun p hp => ?_
    simpa [Function.comp] using (hinv p hp).1
  rw [hkeys] at hnd
  exact List.pairwise_map.mp hnd

/-- Claim C1: every Merged Result Set satisfies the three invariants — pairwise
distinct content-identity keys (first 100 characters of the content text),
score-descending order, and length at most `k`. -/
theorem mergedResultSet_invariants (flatResults : List Hit) (k : Nat) :
    ((parallelMerge flatResults k).Pairwise
      fun a b => contentIdentifier a ≠ contentIdentifier b) ∧
    ((parallelMerge flatResults k).Pairwise fun a b => b.score ≤ a.score) ∧
    (parallelMerge flatResults k).length ≤ k := by
  have hpm : parallelMerge flatResults k =
      (((contentMapOf flatResults).map Prod.snd).insertionSort scoreGe).take k :=
    rfl
  refine ⟨?_, ?_, ?_⟩
  · rw [hpm]
    have hperm : List.Perm
        (((contentMapOf flatResults).map Prod.snd).insertionSort scoreGe)
        ((contentMapOf flatResults).map Prod.snd) :=
      List.perm_insertionSort scoreGe _
    have hpw := (hperm.pairwise_iff
        (fun hab => fun e => hab e.symm)).mpr
      (pairwise_distinct_identifiers flatResults)
    exact hpw.sublist (List.take_sublist _ _)
  · rw [hpm]
    have hsorted : List.Sorted scoreGe
        (((contentMapOf flatResults).map Prod.snd).insertionSort scoreGe) :=
      List.sorted_insertionSort scoreGe _
    have hpw : (((contentMapOf flatResults).map Prod.snd).insertionSort
        scoreGe).Pairwise fun a b => b.score ≤ a.score :=
      hsorted.imp fun h => h
    exact hpw.sublist (List.take_sublist _ _)
  · rw [hpm]
    simp [List.length_take]

theorem mem_parallelMerge {flatResults : List Hit} {k : Nat} {h : Hit}
    (hmem : h ∈ parallelMerge flatResults k) : h ∈ flatResults := by
  obtain ⟨-, hinv⟩ := contentMapOf_invariant flatResults
  have h1 : h ∈ ((contentMapOf flatResults).map Prod.snd).insertionSort scoreGe :=
    (List.take_sublist _ _).subset hmem
  have h2 : h ∈ (contentMapOf flatResults).map Prod.snd := by
    simpa using h1
  obtain ⟨p, hp, hpe⟩ := List.mem_map.mp h2
  rw [← hpe]
  exact (hinv p hp).2

/-! ### The deduplication fold, characterised per identity key -/

/-- The per-key merge rule, as one fold step: replace the hit kept so far
only when the new hit's score is strictly higher, so score ties keep the
hit encountered first. -/
def keepHigher (best : Option Hit) (h : Hit) : Option Hit :=
  match best with
  | none => some h
  | some w => if w.score < h.score then some h else some w

theorem mapGet_dedupStep_same (m : List (String × Hit)) (r : Hit) :
    mapGet (contentIdentifier r) (dedupStep m r) =
      keepHigher (mapGet (contentIdentifier r) m) r := by
  rcases hm : mapGet (contentIdentifier r) m with _ | prev
  · rw [dedupStep_of_none hm, mapGet_mapSet]
    simp [keepHigher]
  · by_cases hs : prev.score < r.score
    · rw [dedupStep_of_some_lt hm hs, mapGet_mapSet]
      simp [keepHigher, hs]
    · rw [dedupStep_of_some_ge hm hs, hm]
      simp [keepHigher, hs]

theorem mapGet_dedupStep_other {r : Hit} {key : String}
    (m : List (String × Hit)) (hc : contentIdentifier r ≠ key) :
    mapGet key (dedupStep m r) = mapGet key m := by
  rcases hm : mapGet (contentIdentifier r) m with _ | prev
  · rw [dedupStep_of_none hm, mapGet_mapSet, if_neg hc]
  · by_cases hs : prev.score < r.score
    · rw [dedupStep_of_some_lt hm hs, mapGet_mapSet, if_neg hc]
    · rw [dedupStep_of_some_ge hm hs]

theorem mapGet_foldl_dedupStep (hits : List Hit) (m : List (String × Hit))
    (key : String) :
    mapGet key (hits.foldl dedupStep m) =
      (hits.filter fun h => contentIdentifier h == key).foldl keepHigher
        (mapGet key m) := by
  induction hits generalizing m with
  | nil => simp
  | cons r t ih =>
    rw [List.foldl_cons, ih]
    by_cases hc : contentIdentifier r = key
    · rw [List.filter_cons_of_pos (by simpa using hc), List.foldl_cons]
      subst hc
      rw [mapGet_dedupStep_same]
    · rw [List.filter_cons_of_neg (by simpa using hc),
        mapGet_dedupStep_other m hc]

/-- Spec-side merge rule, modelled from the spec's words (§4.3): among the
hits whose identity key (the first 100 characters of the content text)
equals `key`, keep the hit with the strictly higher score; when scores tie,
keep whichever hit is encountered first in input order. -/
def specMergeRule (key : String) (hits : List Hit) : Option Hit :=
  (hits.filter fun h => h.pageContent.take 100 == key).foldl keepHigher none

/-- Claim C2: for every input list and every identity key, the entry the
deduplication map holds for that key is exactly the one prescribed by the
spec's merge rule — the strictly-higher-scoring hit, ties resolved to the
first hit encountered. -/
theorem dedup_matches_specMergeRule (flatResults : List Hit) (key : String) :
    mapGet key (contentMapOf flatResults) = specMergeRule key flatResults := by
  rw [contentMapOf, mapGet_foldl_dedupStep, specMergeRule]
  simp only [contentIdentifier, mapGet]

/-! ### The Query Expander (C3, C4, C5) -/

/-- Claim C3: for every non-empty original query and every outcome of the
generative-service call (successful parse, parse failure, service
failure), the Query Expander returns a sequence of length at least 1 whose
first element is the original query. -/
theorem queryExpander_first_is_original (parse : String → Option (List String))
    (originalQuery : String) (svc : GenServiceOutcome)
    (h : originalQuery ≠ "") :
    (generateQueryVariations parse originalQuery svc).head? = some originalQuery ∧
    1 ≤ (generateQueryVariations parse originalQuery svc).length := by
  cases svc with
  | err => simp [generateQueryVariations]
  | ok responseText =>
    cases hp : parse (stripCodeFences responseText) <;>
      simp [generateQueryVariations, hp]

/-- Witness for C3 at a concrete query and service outcome. -/
theorem queryExpander_first_is_original_witness :
    ("streams" : String) ≠ "" ∧
    ((generateQueryVariations (fun _ => none) "streams"
        GenServiceOutcome.err).head? = some "streams" ∧
      1 ≤ (generateQueryVariations (fun _ => none) "streams"
            GenServiceOutcome.err).length) :=
  ⟨by decide, queryExpander_first_is_original (fun _ => none) "streams"
    GenServiceOutcome.err (by decide)⟩

/-- Claim C4: when the cleaned response text does not parse as JSON, the Query
Expander returns, without throwing, exactly the original query followed by
the three deterministic templated variations — a sequence of length 4 —
with no further external call or parse step. -/
theorem queryExpander_parse_failure_fallback
    (parse : String → Option (List String))
    (originalQuery responseText : String)
    (hp : parse (stripCodeFences responseText) = none) :
    generateQueryVariations parse originalQuery
        (GenServiceOutcome.ok responseText) =
      [originalQuery,
       "What are the technical aspects of " ++ originalQuery ++ "?",
       "Examples of " ++ originalQuery ++ " in Node.js",
       "Explain the concept of " ++ originalQuery ++ " in Node.js"] ∧
    (generateQueryVariations parse originalQuery
        (GenServiceOutcome.ok responseText)).length = 4 := by
  simp [generateQueryVariations, hp]

/-- Witness for C4: a response that fails to parse yields the four
templated variations. -/
theorem queryExpander_parse_failure_fallback_witness :
    generateQueryVariations (fun _ => none) "event loop"
        (GenServiceOutcome.ok "oops, not json") =
      ["event loop",
       "What are the technical aspects of " ++ "event loop" ++ "?",
       "Examples of " ++ "event loop" ++ " in Node.js",
       "Explain the concept of " ++ "event loop" ++ " in Node.js"] ∧
    (generateQueryVariations (fun _ => none) "event loop"
        (GenServiceOutcome.ok "oops, not json")).length = 4 :=
  queryExpander_parse_failure_fallback (fun _ => none) "event loop"
    "oops, not json" rfl

/-- Claim C5: when the service call succeeds and the cleaned response parses as
a JSON array of exactly three strings, the result is the original query
followed by those three paraphrases — a sequence of length exactly 4. -/
theorem queryExpander_parse_success (parse : String → Option (List String))
    (originalQuery responseText : String) (variations : List String)
    (hp : parse (stripCodeFences responseText) = some variations)
    (h3 : variations.length = 3) :
    generateQueryVariations parse originalQuery
        (GenServiceOutcome.ok responseText) = originalQuery :: variations ∧
    (generateQueryVariations parse originalQuery
        (GenServiceOutcome.ok responseText)).length = 4 := by
  have he : generateQueryVariations parse originalQuery
      (GenServiceOutcome.ok responseText) = originalQuery :: variations := by
    simp [generateQueryVariations, hp]
  rw [he]
  simp [h3]

/-- Witness for C5: a fenced JSON array of three strings yields the
original plus the three paraphrases. -/
theorem queryExpander_parse_success_witness :
    generateQueryVariations (fun _ => some ["a", "b", "c"]) "buffers"
        (GenServiceOutcome.ok "some response") =
      "buffers" :: ["a", "b", "c"] ∧
    (generateQueryVariations (fun _ => some ["a", "b", "c"]) "buffers"
        (GenServiceOutcome.ok "some response")).length = 4 :=
  queryExpander_parse_success (fun _ => some ["a", "b", "c"]) "buffers"
    "some response" ["a", "b", "c"] rfl rfl

/-! ### The fan-out searcher (C6, C7, C9, C10) -/

theorem fanOut_length (variations : List String) (k : Nat)
    (env : Nat → SearchOutcome) :
    (fanOut variations k env).length = variations.length := by
  induction variations generalizing env with
  | nil => simp [fanOut]
  | cons q rest ih => simp [fanOut, ih]

theorem fanOut_getElem (variations : List String) (k : Nat)
    (env : Nat → SearchOutcome) (i : Nat) :
    (fanOut variations k env)[i]? =
      (variations[i]?).map fun q => singleQuerySearch q k (env i) := by
  induction variations generalizing env i with
  | nil => simp [fanOut]
  | cons q rest ih =>
    cases i with
    | zero => simp [fanOut]
    | succ n =>
      simp only [fanOut, List.getElem?_cons_succ]
      exact ih (fun t => env (t + 1)) n

/-- Claim C6: a failure of one variation's search does not abort the batch — a
search error yields `[]` rather than a thrown exception, the fan-out still
has one entry per variation, the failing position contributes the empty
list, and every other position still carries its own search result. -/
theorem fanOut_failure_isolated (variations : List String) (k j : Nat)
    (env : Nat → SearchOutcome) (hj : env j = SearchOutcome.err) :
    (∀ q, singleQuerySearch q k SearchOutcome.err = []) ∧
    (fanOut variations k env).length = variations.length ∧
    (fanOut variations k env)[j]?.getD [] = [] ∧
    ∀ i, i ≠ j →
      (fanOut variations k env)[i]? =
        (variations[i]?).map fun q => singleQuerySearch q k (env i) := by
  refine ⟨fun q => rfl, fanOut_length variations k env, ?_, ?_⟩
  · rw [fanOut_getElem]
    cases variations[j]? with
    | none => rfl
    | some q => simp [hj, singleQuerySearch]
  · intro i _
    exact fanOut_getElem variations k env i

/-- Witness for C6: two variations, the second search fails, the first is
untouched. -/
theorem fanOut_failure_isolated_witness :
    (∀ q, singleQuerySearch q 4 SearchOutcome.err = []) ∧
    (fanOut ["a", "b"] 4
        (fun i => if i = 1 then SearchOutcome.err
          else SearchOutcome.ok [⟨"alpha", "m", 1⟩])).length =
      (["a", "b"] : List String).length ∧
    (fanOut ["a", "b"] 4
        (fun i => if i = 1 then SearchOutcome.err
          else SearchOutcome.ok [⟨"alpha", "m", 1⟩]))[1]?.getD [] = [] ∧
    ∀ i, i ≠ 1 →
      (fanOut ["a", "b"] 4
          (fun i => if i = 1 then SearchOutcome.err
            else SearchOutcome.ok [⟨"alpha", "m", 1⟩]))[i]? =
        ((["a", "b"] : List String)[i]?).map fun q =>
          singleQuerySearch q 4
            ((fun i => if i = 1 then SearchOutcome.err
              else SearchOutcome.ok [⟨"alpha", "m", 1⟩]) i) :=
  fanOut_failure_isolated ["a", "b"] 4 1
    (fun i => if i = 1 then SearchOutcome.err
      else SearchOutcome.ok [⟨"alpha", "m", 1⟩]) rfl

theorem parallelMerge_nil (k : Nat) : parallelMerge [] k = [] := by
  simp [parallelMerge, contentMapOf]

/-- Claim C7: when every variation's search returns zero hits, the flattened hit
list is empty and the merge step returns the empty sequence, for every
result count `k`. -/
theorem parallelQuerySearch_zero_hits (parse : String → Option (List String))
    (originalQuery : String) (k : Nat) (svc : GenServiceOutcome)
    (env : Nat → SearchOutcome) (h : ∀ i, env i = SearchOutcome.ok []) :
    (fanOut (generateQueryVariations parse originalQuery svc) k env).flatten
        = [] ∧
    parallelQuerySearchBody parse originalQuery k svc env = [] := by
  have hflat : ∀ (vs : List String) (e : Nat → SearchOutcome),
      (∀ i, e i = SearchOutcome.ok []) → (fanOut vs k e).flatten = [] := by
    intro vs
    induction vs with
    | nil => intro e he; simp [fanOut]
    | cons q rest ih =>
      intro e he
      simp only [fanOut, List.flatten_cons]
      rw [he 0]
      simp only [singleQuerySearch, List.map_nil, List.nil_append]
      exact ih (fun i => e (i + 1)) (fun i => he (i + 1))
  have h1 := hflat (generateQueryVariations parse originalQuery svc) env h
  refine ⟨h1, ?_⟩
  rw [parallelQuerySearchBody]
  rw [h1]
  exact parallelMerge_nil k

/-- Witness for C7 at a concrete query, outcome and `k`. -/
theorem parallelQuerySearch_zero_hits_witness :
    (fanOut (generateQueryVariations (fun _ => none) "clusters"
        GenServiceOutcome.err) 4 (fun _ => SearchOutcome.ok [])).flatten = [] ∧
    parallelQuerySearchBody (fun _ => none) "clusters" 4 GenServiceOutcome.err
      (fun _ => SearchOutcome.ok []) = [] :=
  parallelQuerySearch_zero_hits (fun _ => none) "clusters" 4
    GenServiceOutcome.err (fun _ => SearchOutcome.ok []) (fun _ => rfl)

/-- Claim C9: every entry of the Merged Result Set is one of the flattened
fan-out hits, unchanged — the merge step never fabricates or modifies a
hit. -/
theorem parallelQuerySearch_entries_from_fanOut
    (parse : String → Option (List String)) (originalQuery : String)
    (k : Nat) (svc : GenServiceOutcome) (env : Nat → SearchOutcome)
    (h : Hit)
    (hmem : h ∈ parallelQuerySearchBody parse originalQuery k svc env) :
    h ∈ (fanOut (generateQueryVariations parse originalQuery svc) k
      env).flatten := by
  rw [parallelQuerySearchBody] at hmem
  exact mem_parallelMerge hmem

/-- Witness for C9: a concrete merged entry is literally one of the
fan-out hits. -/
theorem parallelQuerySearch_entries_from_fanOut_witness :
    (⟨"alpha", "m", 1, "clusters"⟩ : Hit) ∈
      (fanOut (generateQueryVariations (fun _ => none) "clusters"
          GenServiceOutcome.err) 4
        (fun _ => SearchOutcome.ok [⟨"alpha", "m", 1⟩])).flatten :=
  parallelQuerySearch_entries_from_fanOut (fun _ => none) "clusters" 4
    GenServiceOutcome.err (fun _ => SearchOutcome.ok [⟨"alpha", "m", 1⟩])
    ⟨"alpha", "m", 1, "clusters"⟩ (by decide)

/-- Claim C10: when some step of the try block throws, `parallelQuerySearch`
catches the error and falls back to a single search of the original query
with the same limit `k`, instead of propagating the error. -/
theorem parallelQuerySearch_catch_fallback
    (parse : String → Option (List String)) (originalQuery : String)
    (k : Nat) (svc : GenServiceOutcome) (env : Nat → SearchOutcome)
    (pipelineThrew : Bool) (fallbackOutcome : SearchOutcome)
    (h : pipelineThrew = true) :
    parallelQuerySearch parse originalQuery k svc env pipelineThrew
        fallbackOutcome =
      singleQuerySearch originalQuery k fallbackOutcome := by
  simp [parallelQuerySearch, h]

/-- Witness for C10 at a concrete failing pipeline. -/
theorem parallelQuerySearch_catch_fallback_witness :
    parallelQuerySearch (fun _ => none) "clusters" 4 GenServiceOutcome.err
        (fun _ => SearchOutcome.err) true
        (SearchOutcome.ok [⟨"alpha", "m", 1⟩]) =
      singleQuerySearch "clusters" 4
        (SearchOutcome.ok [⟨"alpha", "m", 1⟩]) :=
  parallelQuerySearch_catch_fallback (fun _ => none) "clusters" 4
    GenServiceOutcome.err (fun _ => SearchOutcome.err) true
    (SearchOutcome.ok [⟨"alpha", "m", 1⟩]) rfl

/-! ### Batched indexing (C8) -/

theorem docBatches_flatten (documents : List Doc) :
    (docBatches documents).flatten = documents := by
  cases documents with
  | nil => simp [docBatches]
  | cons d rest =>
    simp only [docBatches, List.flatten_cons]
    rw [docBatches_flatten ((d :: rest).drop 20)]
    exact List.take_append_drop 20 (d :: rest)
termination_by documents.length
decreasing_by
  simp [List.length_drop]
  omega

theorem docBatches_length (documents : List Doc) :
    (docBatches documents).length = (documents.length + 19) / 20 := by
  cases documents with
  | nil => simp [docBatches]
  | cons d rest =>
    simp only [docBatches, List.length_cons]
    rw [docBatches_length ((d :: rest).drop 20)]
    simp only [List.length_drop, List.length_cons]
    omega
termination_by documents.length
decreasing_by
  simp [List.length_drop]
  omega

theorem docBatches_sizes (documents : List Doc) :
    (docBatches documents).all
      (fun b => decide (0 < b.length ∧ b.length ≤ 20)) = true := by
  cases documents with
  | nil => simp [docBatches]
  | cons d rest =>
    simp only [docBatches, List.all_cons, Bool.and_eq_true]
    refine ⟨?_, docBatches_sizes ((d :: rest).drop 20)⟩
    simp only [decide_eq_true_eq, List.length_take, List.length_cons]
    omega
termination_by documents.length
decreasing_by
  simp [List.length_drop]
  omega

theorem docBatches_eq_nil_iff (documents : List Doc) :
    docBatches documents = [] ↔ documents = [] := by
  cases documents <;> simp [docBatches]

theorem docBatches_dropLast_sizes (documents : List Doc) :
    (docBatches documents).dropLast.all
      (fun b => decide (b.length = 20)) = true := by
  cases documents with
  | nil => simp [docBatches]
  | cons d rest =>
    simp only [docBatches]
    cases hrec : docBatches ((d :: rest).drop 20) with
    | nil => simp
    | cons b bs =>
      rw [List.dropLast_cons₂, List.all_cons, Bool.and_eq_true]
      constructor
      · have hne : (d :: rest).drop 20 ≠ [] := by
          intro he
          rw [he] at hrec
          simp [docBatches] at hrec
        have hlen : 20 < (d :: rest).length := by
          by_contra hc
          exact hne (List.drop_eq_nil_of_le (by omega))
        simp only [decide_eq_true_eq, List.length_take]
        omega
      · rw [← hrec]
        exact docBatches_dropLast_sizes ((d :: rest).drop 20)
termination_by documents.length
decreasing_by
  simp [List.length_drop]
  omega

/-- Claim C8: `addDocumentsToVectorStore` partitions the documents into
consecutive batches of 20 (the last possibly smaller), processed in
order with exactly one upsert call per batch — `ceil(n / 20)` calls in
total — and every document is embedded and upserted exactly once. -/
theorem addDocumentsToVectorStore_batching (embed : String → List ℚ)
    (documents : List Doc) :
    (docBatches documents).flatten = documents ∧
    (upsertCalls embed documents).length = (documents.length + 19) / 20 ∧
    ((docBatches documents).all
      (fun b => decide (0 < b.length ∧ b.length ≤ 20)) = true) ∧
    ((docBatches documents).dropLast.all
      (fun b => decide (b.length = 20)) = true) ∧
    (upsertCalls embed documents).flatten = documents.map (mkPoint embed) := by
  refine ⟨docBatches_flatten documents, ?_, docBatches_sizes documents,
    docBatches_dropLast_sizes documents, ?_⟩
  · rw [upsertCalls, List.length_map, docBatches_length]
  · rw [upsertCalls, ← List.map_flatten, docBatches_flatten]
